import Mathlib

/-
  Shallow embedding of `tradedangerous/misc/deltarows.py`: a merge-style diff
  over two id-ordered streams of records.

  Python object identity (the `is` operator, used by the timestamp exemption)
  is modelled by tagging every value with an object identifier `oid : Nat`:
  two cells are "the same object" exactly when their `oid`s coincide, while
  Python `==` / `!=` compares the `val` payloads.  Python's `None` is a value
  `PyVal.vNone`; the `modified` field (`Optional[int|float|datetime]` in the
  dataclass) is modelled by `MVal`, either absent or a number, again tagged
  with an `oid` so that `columns[i] is row.modified` is expressible.

  The generator `delta` is embedded as a function on finite lists returning
  `Except DeltaError (List (Op × DeltaRow))`: the `assert` on mismatched
  column lengths becomes the `DeltaError.contractViolation` error.
-/

/-- Column cell payloads: Python scalars that can appear in `columns`. -/
inductive PyVal where
  | vNone : PyVal
  | vInt (n : Int) : PyVal
  | vStr (s : String) : PyVal
deriving DecidableEq, Repr

/-- Payload of the `modified` field: `None` or a numeric timestamp. -/
inductive MVal where
  | mNone : MVal
  | num (n : Int) : MVal
deriving DecidableEq, Repr

/-- A Python object appearing as a column cell: a payload plus object identity. -/
structure PyObj where
  val : PyVal
  oid : Nat
deriving DecidableEq, Repr

/-- The object stored in a record's `modified` field, with its identity. -/
structure MObj where
  val : MVal
  oid : Nat
deriving DecidableEq, Repr

/-- Embeds the frozen dataclass `DeltaRow`: an id, an optional modified
timestamp, and a sequence of column values.  Ids are modelled as integers
(the code only needs a total order with `<` and `>`). -/
structure DeltaRow where
  id : Int
  modified : MObj
  columns : List PyObj
deriving DecidableEq, Repr

/-- The `Op` enumeration from the source: the operation kinds `delta` yields. -/
inductive Op where
  | ADD : Op
  | MOD : Op
  | DEL : Op
  | UPD : Op
deriving DecidableEq, Repr

/-- The integer identity each `Op` member carries in the source enum. -/
def Op.value : Op → Nat
  | .ADD => 1
  | .MOD => 2
  | .DEL => 3
  | .UPD => 4

/-- The single failure mode of `delta`: the `assert` on mismatched column
sequence lengths ("Mismatched records passed to sync_sources"). -/
inductive DeltaError where
  | contractViolation : DeltaError
deriving DecidableEq, Repr

/-- Python `(modified or 0)`: `None` is falsy and `0` is falsy, so both
coerce to `0`; any other number stands for itself. -/
def modOrZero (m : MObj) : Int :=
  match m.val with
  | .mNone => 0
  | .num n => n

/-- The freshness comparison `(old_modified or 0) >= (new_modified or 0)`
from the source, with `o` the old record and `n` the new record. -/
def freshGe (o n : DeltaRow) : Bool :=
  decide (modOrZero n.modified ≤ modOrZero o.modified)

/-- The column scan of `delta`: starting from `op = Op.UPD`, walk the zipped
columns; a differing pair is forgiven when the old cell is the old record's
`modified` object and the new cell is the new record's `modified` object
(Python `is`, i.e. equal `oid`s); any other differing pair makes the result
`Op.MOD` and stops the scan. -/
def scanCols (oldMod newMod : MObj) : List PyObj → List PyObj → Op
  | a :: ta, b :: tb =>
    if a.val = b.val then
      scanCols oldMod newMod ta tb
    else if a.oid = oldMod.oid ∧ b.oid = newMod.oid then
      scanCols oldMod newMod ta tb
    else
      Op.MOD
  | _, _ => Op.UPD

/-- The merge-diff engine `delta` from the source, on finite lists.  Matching
the generator: while both cursors hold a record, a smaller old id yields
`DEL`, a smaller new id yields `ADD`; equal ids advance both cursors, skip
the pair when the old record is at least as fresh, otherwise assert equal
column lengths and yield `UPD` or `MOD` per the column scan.  Afterwards the
remaining new records drain as `ADD` and the remaining old ones as `DEL`. -/
def delta : List DeltaRow → List DeltaRow → Except DeltaError (List (Op × DeltaRow))
  | [], newRows => .ok (newRows.map (fun r => (Op.ADD, r)))
  | o :: told, [] => .ok ((o :: told).map (fun r => (Op.DEL, r)))
  | o :: told, n :: tnew =>
    if o.id < n.id then
      (delta told (n :: tnew)).map (fun rest => (Op.DEL, o) :: rest)
    else if n.id < o.id then
      (delta (o :: told) tnew).map (fun rest => (Op.ADD, n) :: rest)
    else if freshGe o n then
      delta told tnew
    else if o.columns.length = n.columns.length then
      (delta told tnew).map (fun rest =>
        (scanCols o.modified n.modified o.columns n.columns, n) :: rest)
    else
      .error .contractViolation
termination_by old newRows => old.length + newRows.length
decreasing_by all_goals simp; all_goals omega

/-- The wrapper `delta_partial` from the source: the same stream with every
`(DEL, _)` pair filtered out. -/
def delta_partial (old_rows new_rows : List DeltaRow) :
    Except DeltaError (List (Op × DeltaRow)) :=
  (delta old_rows new_rows).map (fun out => out.filter (fun p => p.1 != Op.DEL))

/-- Spec-side vocabulary for the timestamp exemption: every position at which
the zipped columns differ in value holds the old record's `modified` object
(by identity) on the old side and the new record's `modified` object (by
identity) on the new side. -/
def tsExempt (o n : DeltaRow) : Bool :=
  (o.columns.zip n.columns).all fun p =>
    p.1.val == p.2.val || (p.1.oid == o.modified.oid && p.2.oid == n.modified.oid)

/-- Does some record of `rows` carry the id `i`? -/
def hasMatch (i : Int) (rows : List DeltaRow) : Bool :=
  rows.any fun s => i == s.id

/-- Number of records of `rows` whose id appears nowhere in `other`. -/
def orphanCount (rows other : List DeltaRow) : Nat :=
  (rows.filter fun r => ! hasMatch r.id other).length

/-- Number of old records whose id also appears in the new stream. -/
def sharedCount (old_rows new_rows : List DeltaRow) : Nat :=
  (old_rows.filter fun o => hasMatch o.id new_rows).length

/-- Does `rows` hold a record with the id of `o` that is strictly fresher
than `o` under the null-as-zero freshness rule? -/
def freshMatch (o : DeltaRow) (rows : List DeltaRow) : Bool :=
  rows.any fun n => o.id == n.id && decide (modOrZero o.modified < modOrZero n.modified)

/-- Number of old records paired with a strictly fresher same-id new record. -/
def freshSharedCount (old_rows new_rows : List DeltaRow) : Nat :=
  (old_rows.filter fun o => freshMatch o new_rows).length

/-- Ids strictly increase along the stream (set-like by id, as the spec's
data-model invariant describes). -/
def idSortedStrict (rows : List DeltaRow) : Prop :=
  rows.Pairwise fun a b => a.id < b.id

/-- Ids are non-decreasing along the stream. -/
def idSortedLe (rows : List DeltaRow) : Prop :=
  rows.Pairwise fun a b => a.id ≤ b.id

/-- A same-id pair of records, one from each stream, on which the new side is
strictly fresher while the column sequences differ in length: exactly the
situation the `assert` in `delta` rejects. -/
def badPair (old_rows new_rows : List DeltaRow) : Prop :=
  ∃ o ∈ old_rows, ∃ n ∈ new_rows, o.id = n.id ∧
    modOrZero o.modified < modOrZero n.modified ∧
    o.columns.length ≠ n.columns.length

/-- Concrete record: id 1, timestamp 5 (object 11), the timestamp embedded
by identity as the second column. -/
def wRow1 : DeltaRow := ⟨1, ⟨.num 5, 11⟩, [⟨.vStr "a", 12⟩, ⟨.vInt 5, 11⟩]⟩

/-- Concrete record: id 1, fresher timestamp 9 (object 21), again embedded
by identity as the second column. -/
def wRow1b : DeltaRow := ⟨1, ⟨.num 9, 21⟩, [⟨.vStr "a", 12⟩, ⟨.vInt 9, 21⟩]⟩

/-- Concrete record with id 2, a null timestamp and no columns. -/
def wRow2 : DeltaRow := ⟨2, ⟨.mNone, 0⟩, []⟩

/-- Concrete record with id 3 and one column. -/
def wRow3 : DeltaRow := ⟨3, ⟨.num 7, 31⟩, [⟨.vInt 1, 32⟩]⟩

/-- Concrete record with id 4, timestamp 1 and no columns. -/
def wBad1 : DeltaRow := ⟨4, ⟨.num 1, 41⟩, []⟩

/-- Concrete record with id 4, fresher timestamp 2 and one column: paired
with `wBad1` it violates the column-length contract. -/
def wBad2 : DeltaRow := ⟨4, ⟨.num 2, 42⟩, [⟨.vInt 2, 42⟩]⟩

/-- Variant of `wRow2`: same id, the timestamp zero instead of null. -/
def wRow2z : DeltaRow := ⟨2, ⟨.num 0, 5⟩, []⟩

theorem except_map_ok {α β γ : Type} (f : β → γ) (e : Except α β) (c : γ) :
    e.map f = .ok c ↔ ∃ b, e = .ok b ∧ c = f b := by
  cases e <;> simp [Except.map, eq_comm]

theorem except_map_error {α β γ : Type} (f : β → γ) (e : Except α β) (a : α) :
    e.map f = .error a ↔ e = .error a := by
  cases e <;> simp [Except.map]

theorem delta_nil_left (rows : List DeltaRow) :
    delta [] rows = .ok (rows.map fun r => (Op.ADD, r)) := by
  simp [delta]

theorem delta_nil_right (rows : List DeltaRow) :
    delta rows [] = .ok (rows.map fun r => (Op.DEL, r)) := by
  cases rows <;> simp [delta]

theorem delta_lt (o n : DeltaRow) (told tnew : List DeltaRow) (h : o.id < n.id) :
    delta (o :: told) (n :: tnew) =
      (delta told (n :: tnew)).map (fun rest => (Op.DEL, o) :: rest) := by
  rw [delta]
  simp [h]

theorem delta_gt (o n : DeltaRow) (told tnew : List DeltaRow) (h : n.id < o.id) :
    delta (o :: told) (n :: tnew) =
      (delta (o :: told) tnew).map (fun rest => (Op.ADD, n) :: rest) := by
  rw [delta]
  simp [h, asymm h]

theorem delta_equal_skip (o n : DeltaRow) (told tnew : List DeltaRow)
    (hid : o.id = n.id) (hf : freshGe o n = true) :
    delta (o :: told) (n :: tnew) = delta told tnew := by
  rw [delta]
  simp [hid, hf]

theorem delta_equal_fresh (o n : DeltaRow) (told tnew : List DeltaRow)
    (hid : o.id = n.id) (hf : freshGe o n = false)
    (hlen : o.columns.length = n.columns.length) :
    delta (o :: told) (n :: tnew) =
      (delta told tnew).map (fun rest =>
        (scanCols o.modified n.modified o.columns n.columns, n) :: rest) := by
  rw [delta]
  simp [hid, hf, hlen]

theorem delta_equal_bad (o n : DeltaRow) (told tnew : List DeltaRow)
    (hid : o.id = n.id) (hf : freshGe o n = false)
    (hlen : o.columns.length ≠ n.columns.length) :
    delta (o :: told) (n :: tnew) = .error .contractViolation := by
  rw [delta]
  simp [hid, hf, hlen]

theorem scanCols_eq_all (om nm : MObj) (xs ys : List PyObj) :
    scanCols om nm xs ys =
      if (xs.zip ys).all (fun p =>
          p.1.val == p.2.val || (p.1.oid == om.oid && p.2.oid == nm.oid))
        then Op.UPD else Op.MOD := by
  induction xs generalizing ys with
  | nil => simp [scanCols]
  | cons a ta ih =>
    cases ys with
    | nil => simp [scanCols]
    | cons b tb =>
      by_cases hv : a.val = b.val
      · have hb : (a.val == b.val) = true := beq_iff_eq.mpr hv
        rw [List.zip_cons_cons, List.all_cons, hb]
        simp only [Bool.true_or, Bool.true_and]
        rw [scanCols, if_pos hv]
        exact ih tb
      · have hb : (a.val == b.val) = false := beq_eq_false_iff_ne.mpr hv
        rw [List.zip_cons_cons, List.all_cons, hb, Bool.false_or]
        by_cases h1 : a.oid = om.oid
        · by_cases h2 : b.oid = nm.oid
          · have hb1 : (a.oid == om.oid) = true := beq_iff_eq.mpr h1
            have hb2 : (b.oid == nm.oid) = true := beq_iff_eq.mpr h2
            rw [hb1, hb2, Bool.true_and, Bool.true_and]
            rw [scanCols, if_neg hv, if_pos ⟨h1, h2⟩]
            exact ih tb
          · have hb2 : (b.oid == nm.oid) = false := beq_eq_false_iff_ne.mpr h2
            rw [hb2, Bool.and_false, Bool.false_and]
            rw [scanCols, if_neg hv, if_neg (by tauto)]
            simp
        · have hb1 : (a.oid == om.oid) = false := beq_eq_false_iff_ne.mpr h1
          rw [hb1, Bool.false_and, Bool.false_and]
          rw [scanCols, if_neg hv, if_neg (by tauto)]
          simp

/-- Claim C6: for every finite list of records, feeding the identical stream
to both sides of delta yields the empty sequence (no error and no output),
for every stream length including zero. -/
theorem delta_self_empty (rows : List DeltaRow) : delta rows rows = .ok [] := by
  induction rows with
  | nil => simp [delta]
  | cons r rs ih =>
    rw [delta_equal_skip r r rs rs rfl (by simp [freshGe])]
    exact ih

/-- Claim C2: at a same-id pair where the old record is at least as fresh
under the null-as-zero rule, delta emits nothing for the pair and never
consults the column sequences: both cursors advance and the result is
exactly the delta of the two tails, whatever the columns hold. -/
theorem delta_equal_stale_skips (o n : DeltaRow) (told tnew : List DeltaRow)
    (hid : o.id = n.id) (hf : modOrZero n.modified ≤ modOrZero o.modified) :
    delta (o :: told) (n :: tnew) = delta told tnew :=
  delta_equal_skip o n told tnew hid (by simpa [freshGe] using hf)

/-- Witness for C2 at a concrete pair: old wRow1b (timestamp 9) against new
wRow1 (timestamp 5) whose columns differ, emitting nothing. -/
theorem delta_equal_stale_skips_w : delta [wRow1b] [wRow1] = .ok [] := by
  have h := delta_equal_stale_skips wRow1b wRow1 [] [] (by decide) (by decide)
  rw [h]
  simp [delta]

/-- Claim C1: at a same-id pair where the new record is strictly fresher and
the column sequences have equal length, delta emits exactly one pair
carrying the new record, tagged UPD when every value-differing column
position holds the old record's modified object by identity on the old side
and the new record's modified object by identity on the new side, and MOD
otherwise. -/
theorem delta_equal_fresh_classifies (o n : DeltaRow) (told tnew : List DeltaRow)
    (hid : o.id = n.id) (hf : modOrZero o.modified < modOrZero n.modified)
    (hlen : o.columns.length = n.columns.length) :
    delta (o :: told) (n :: tnew) =
      (delta told tnew).map (fun rest =>
        ((if tsExempt o n then Op.UPD else Op.MOD), n) :: rest) := by
  have hfg : freshGe o n = false := by
    simp only [freshGe, decide_eq_false_iff_not, not_le]
    exact hf
  rw [delta_equal_fresh o n told tnew hid hfg hlen]
  simp only [scanCols_eq_all, tsExempt]

/-- Witness for C1: wRow1b is strictly fresher than wRow1 and differs only
at the identity-embedded timestamp column, so the one emitted pair is UPD. -/
theorem delta_equal_fresh_classifies_w :
    delta [wRow1] [wRow1b] = .ok [(Op.UPD, wRow1b)] := by
  have h := delta_equal_fresh_classifies wRow1 wRow1b [] []
      (by decide) (by decide) (by decide)
  rw [h, delta_nil_left]
  have ht : tsExempt wRow1 wRow1b = true := by decide
  simp [Except.map, ht]

/-- Claim C7: null and 0 are interchangeable modified values for the
freshness comparison on either side, and a same-id pair whose modified
fields both lie in the null-or-zero class is never reported as changed:
delta emits nothing for it. -/
theorem delta_null_zero_equiv (o o' n : DeltaRow) (told tnew : List DeltaRow)
    (ho : o.modified.val = MVal.mNone ∨ o.modified.val = MVal.num 0)
    (ho' : o'.modified.val = MVal.mNone ∨ o'.modified.val = MVal.num 0) :
    (freshGe o n = freshGe o' n ∧ freshGe n o = freshGe n o') ∧
    (o.id = n.id → (n.modified.val = MVal.mNone ∨ n.modified.val = MVal.num 0) →
      delta (o :: told) (n :: tnew) = delta told tnew) := by
  have hz : modOrZero o.modified = 0 := by
    rcases ho with h | h <;> simp [modOrZero, h]
  have hz' : modOrZero o'.modified = 0 := by
    rcases ho' with h | h <;> simp [modOrZero, h]
  refine ⟨⟨by simp [freshGe, hz, hz'], by simp [freshGe, hz, hz']⟩, ?_⟩
  intro hid hn
  have hzn : modOrZero n.modified = 0 := by
    rcases hn with h | h <;> simp [modOrZero, h]
  exact delta_equal_skip o n told tnew hid (by simp [freshGe, hz, hzn])

/-- Witness for C7: wRow2 has a null timestamp and wRow2z the timestamp 0 at
the same id; freshness agrees under the swap and the pair emits nothing. -/
theorem delta_null_zero_equiv_w :
    (freshGe wRow2 wRow2z = freshGe wRow2z wRow2z ∧
     freshGe wRow2z wRow2 = freshGe wRow2z wRow2z) ∧
    delta [wRow2] [wRow2z] = delta [] [] := by
  have h := delta_null_zero_equiv wRow2 wRow2z wRow2z [] [] (by decide) (by decide)
  exact ⟨h.1, h.2 (by decide) (by decide)⟩

/-- Claim C9: the wrapper yields exactly the output of delta with every
(DEL, _) pair removed, in the same relative order, and adds no failure mode
of its own: it errors exactly when delta errors, with the same error. -/
theorem delta_del_suppression (old_rows new_rows : List DeltaRow) :
    (∀ out, delta old_rows new_rows = .ok out →
        delta_partial old_rows new_rows = .ok (out.filter fun p => p.1 != Op.DEL)) ∧
    (∀ e, delta old_rows new_rows = .error e →
        delta_partial old_rows new_rows = .error e) := by
  constructor
  · intro out h
    simp [ delta_partial, h, Except.map]
  · intro e h
    simp [ delta_partial, h, Except.map]

/-- Witness for C9: one old-only record gives a single DEL from delta and an
empty output from the wrapper. -/
theorem delta_del_suppression_w : delta_partial [wRow2] [] = .ok [] := by
  have hd : delta [wRow2] [] = .ok [(Op.DEL, wRow2)] := by
    rw [delta_nil_right]
    simp
  have h := (delta_del_suppression [wRow2] []).1 [(Op.DEL, wRow2)] hd
  rw [h]
  rfl

/-- Claim C3: when the two streams share no ids, delta succeeds and emits
exactly one DEL per old record and one ADD per new record, each preserving
its input's relative order, and emits nothing else; the boundary shapes
(both streams empty, only new records, only old records) are instances. -/
theorem delta_disjoint_add_del (old_rows new_rows : List DeltaRow)
    (hdisj : ∀ r ∈ old_rows, ∀ s ∈ new_rows, r.id ≠ s.id) :
    ∃ out, delta old_rows new_rows = .ok out ∧
      out.filter (fun p => p.1 == Op.DEL) = old_rows.map (fun r => (Op.DEL, r)) ∧
      out.filter (fun p => p.1 == Op.ADD) = new_rows.map (fun r => (Op.ADD, r)) ∧
      ∀ p ∈ out, p.1 = Op.DEL ∨ p.1 = Op.ADD := by
  induction old_rows, new_rows using delta.induct with
  | case1 newRows =>
    refine ⟨newRows.map (fun r => (Op.ADD, r)), delta_nil_left newRows, ?_, ?_, ?_⟩
    · simp [List.filter_map, Function.comp_def]
    · simp [List.filter_map, Function.comp_def]
    · intro p hp
      simp only [List.mem_map] at hp
      obtain ⟨r, _, rfl⟩ := hp
      exact Or.inr rfl
  | case2 o told =>
    refine ⟨(o :: told).map (fun r => (Op.DEL, r)), delta_nil_right (o :: told), ?_, ?_, ?_⟩
    · simp [List.filter_map, Function.comp_def]
    · simp [List.filter_map, Function.comp_def]
    · intro p hp
      simp only [List.mem_map] at hp
      obtain ⟨r, _, rfl⟩ := hp
      exact Or.inl rfl
  | case3 o told n tnew hlt ih =>
    obtain ⟨out, hout, hdel, hadd, hall⟩ :=
      ih (fun r hr s hs => hdisj r (List.mem_cons_of_mem _ hr) s hs)
    refine ⟨(Op.DEL, o) :: out, ?_, ?_, ?_, ?_⟩
    · rw [delta_lt o n told tnew hlt, hout]
      rfl
    · simp [List.filter_cons, hdel]
    · simp [List.filter_cons, hadd]
    · intro p hp
      rcases List.mem_cons.mp hp with rfl | hp
      · exact Or.inl rfl
      · exact hall p hp
  | case4 o told n tnew hnlt hgt ih =>
    obtain ⟨out, hout, hdel, hadd, hall⟩ :=
      ih (fun r hr s hs => hdisj r hr s (List.mem_cons_of_mem _ hs))
    refine ⟨(Op.ADD, n) :: out, ?_, ?_, ?_, ?_⟩
    · rw [delta_gt o n told tnew hgt, hout]
      rfl
    · simp [List.filter_cons, hdel]
    · simp [List.filter_cons, hadd]
    · intro p hp
      rcases List.mem_cons.mp hp with rfl | hp
      · exact Or.inr rfl
      · exact hall p hp
  | case5 o told n tnew h1 h2 hfr ih =>
    exact absurd (le_antisymm (not_lt.mp h2) (not_lt.mp h1))
      (hdisj o (List.mem_cons_self _ _) n (List.mem_cons_self _ _))
  | case6 o told n tnew h1 h2 hfr hlen ih =>
    exact absurd (le_antisymm (not_lt.mp h2) (not_lt.mp h1))
      (hdisj o (List.mem_cons_self _ _) n (List.mem_cons_self _ _))
  | case7 o told n tnew h1 h2 hfr hlen =>
    exact absurd (le_antisymm (not_lt.mp h2) (not_lt.mp h1))
      (hdisj o (List.mem_cons_self _ _) n (List.mem_cons_self _ _))

/-- Witness for C3: disjoint singletons give one DEL then one ADD. -/
theorem delta_disjoint_add_del_w :
    ∃ out, delta [wRow1] [wRow2] = .ok out ∧
      out.filter (fun p => p.1 == Op.DEL) = [wRow1].map (fun r => (Op.DEL, r)) ∧
      out.filter (fun p => p.1 == Op.ADD) = [wRow2].map (fun r => (Op.ADD, r)) ∧
      ∀ p ∈ out, p.1 = Op.DEL ∨ p.1 = Op.ADD :=
  delta_disjoint_add_del [wRow1] [wRow2] (by decide)

theorem scanCols_ne_del (om nm : MObj) (xs ys : List PyObj) :
    scanCols om nm xs ys ≠ Op.DEL := by
  rw [scanCols_eq_all]
  split <;> simp

theorem delta_ok_mem (old_rows new_rows : List DeltaRow)
    (out : List (Op × DeltaRow)) (h : delta old_rows new_rows = .ok out) :
    ∀ p ∈ out, (p.1 = Op.DEL ∧ p.2 ∈ old_rows) ∨ (p.1 ≠ Op.DEL ∧ p.2 ∈ new_rows) := by
  induction old_rows, new_rows using delta.induct generalizing out with
  | case1 newRows =>
    rw [delta_nil_left] at h
    injection h with h
    subst h
    intro p hp
    simp only [List.mem_map] at hp
    obtain ⟨r, hr, rfl⟩ := hp
    exact Or.inr ⟨by simp, hr⟩
  | case2 o told =>
    rw [delta_nil_right] at h
    injection h with h
    subst h
    intro p hp
    simp only [List.mem_map] at hp
    obtain ⟨r, hr, rfl⟩ := hp
    exact Or.inl ⟨rfl, hr⟩
  | case3 o told n tnew hlt ih =>
    rw [delta_lt o n told tnew hlt, except_map_ok] at h
    obtain ⟨rest, hrest, rfl⟩ := h
    intro p hp
    rcases List.mem_cons.mp hp with rfl | hp
    · exact Or.inl ⟨rfl, List.mem_cons_self _ _⟩
    · rcases ih rest hrest p hp with ⟨hop, hm⟩ | ⟨hop, hm⟩
      · exact Or.inl ⟨hop, List.mem_cons_of_mem _ hm⟩
      · exact Or.inr ⟨hop, hm⟩
  | case4 o told n tnew h1 hgt ih =>
    rw [delta_gt o n told tnew hgt, except_map_ok] at h
    obtain ⟨rest, hrest, rfl⟩ := h
    intro p hp
    rcases List.mem_cons.mp hp with rfl | hp
    · exact Or.inr ⟨by simp, List.mem_cons_self _ _⟩
    · rcases ih rest hrest p hp with ⟨hop, hm⟩ | ⟨hop, hm⟩
      · exact Or.inl ⟨hop, hm⟩
      · exact Or.inr ⟨hop, List.mem_cons_of_mem _ hm⟩
  | case5 o told n tnew h1 h2 hfr ih =>
    rw [delta_equal_skip o n told tnew (le_antisymm (not_lt.mp h2) (not_lt.mp h1)) hfr] at h
    intro p hp
    rcases ih out h p hp with ⟨hop, hm⟩ | ⟨hop, hm⟩
    · exact Or.inl ⟨hop, List.mem_cons_of_mem _ hm⟩
    · exact Or.inr ⟨hop, List.mem_cons_of_mem _ hm⟩
  | case6 o told n tnew h1 h2 hfr hlen ih =>
    rw [delta_equal_fresh o n told tnew (le_antisymm (not_lt.mp h2) (not_lt.mp h1))
      (Bool.not_eq_true _ ▸ hfr) hlen, except_map_ok] at h
    obtain ⟨rest, hrest, rfl⟩ := h
    intro p hp
    rcases List.mem_cons.mp hp with rfl | hp
    · exact Or.inr ⟨scanCols_ne_del _ _ _ _, List.mem_cons_self _ _⟩
    · rcases ih rest hrest p hp with ⟨hop, hm⟩ | ⟨hop, hm⟩
      · exact Or.inl ⟨hop, List.mem_cons_of_mem _ hm⟩
      · exact Or.inr ⟨hop, List.mem_cons_of_mem _ hm⟩
  | case7 o told n tnew h1 h2 hfr hlen =>
    rw [delta_equal_bad o n told tnew (le_antisymm (not_lt.mp h2) (not_lt.mp h1))
      (Bool.not_eq_true _ ▸ hfr) hlen] at h
    cases h

theorem delta_ok_length (old_rows new_rows : List DeltaRow)
    (out : List (Op × DeltaRow)) (h : delta old_rows new_rows = .ok out) :
    out.length ≤ old_rows.length + new_rows.length := by
  induction old_rows, new_rows using delta.induct generalizing out with
  | case1 newRows =>
    rw [delta_nil_left] at h
    injection h with h
    subst h
    simp
  | case2 o told =>
    rw [delta_nil_right] at h
    injection h with h
    subst h
    simp
  | case3 o told n tnew hlt ih =>
    rw [delta_lt o n told tnew hlt, except_map_ok] at h
    obtain ⟨rest, hrest, rfl⟩ := h
    have := ih rest hrest
    simp only [List.length_cons] at *
    omega
  | case4 o told n tnew h1 hgt ih =>
    rw [delta_gt o n told tnew hgt, except_map_ok] at h
    obtain ⟨rest, hrest, rfl⟩ := h
    have := ih rest hrest
    simp only [List.length_cons] at *
    omega
  | case5 o told n tnew h1 h2 hfr ih =>
    rw [delta_equal_skip o n told tnew (le_antisymm (not_lt.mp h2) (not_lt.mp h1)) hfr] at h
    have := ih out h
    simp only [List.length_cons] at *
    omega
  | case6 o told n tnew h1 h2 hfr hlen ih =>
    rw [delta_equal_fresh o n told tnew (le_antisymm (not_lt.mp h2) (not_lt.mp h1))
      (Bool.not_eq_true _ ▸ hfr) hlen, except_map_ok] at h
    obtain ⟨rest, hrest, rfl⟩ := h
    have := ih rest hrest
    simp only [List.length_cons] at *
    omega
  | case7 o told n tnew h1 h2 hfr hlen =>
    rw [delta_equal_bad o n told tnew (le_antisymm (not_lt.mp h2) (not_lt.mp h1))
      (Bool.not_eq_true _ ▸ hfr) hlen] at h
    cases h

theorem delta_ok_sublists (old_rows new_rows : List DeltaRow)
    (out : List (Op × DeltaRow)) (h : delta old_rows new_rows = .ok out) :
    ((out.filter fun p => p.1 == Op.DEL).map Prod.snd).Sublist old_rows ∧
    ((out.filter fun p => p.1 != Op.DEL).map Prod.snd).Sublist new_rows := by
  induction old_rows, new_rows using delta.induct generalizing out with
  | case1 newRows =>
    rw [delta_nil_left] at h
    injection h with h
    subst h
    constructor
    · have hf : List.filter (fun p => p.1 == Op.DEL) (newRows.map fun r => (Op.ADD, r))
          = [] := by
        simp [List.filter_map, Function.comp_def]
      rw [hf, List.map_nil]
    · have hf : List.filter (fun p => p.1 != Op.DEL) (newRows.map fun r => (Op.ADD, r))
          = newRows.map fun r => (Op.ADD, r) := by
        simp [List.filter_map, Function.comp_def, bne,
          (by decide : ((Op.ADD : Op) == Op.DEL) = false)]
      have hm : (newRows.map fun r => ((Op.ADD : Op), r)).map Prod.snd = newRows := by
        simp [List.map_map, Function.comp_def]
      rw [hf, hm]
  | case2 o told =>
    rw [delta_nil_right] at h
    injection h with h
    subst h
    constructor
    · have hf : List.filter (fun p => p.1 == Op.DEL) ((o :: told).map fun r => (Op.DEL, r))
          = (o :: told).map fun r => (Op.DEL, r) := by
        simp [List.filter_map, Function.comp_def]
      have hm : ((o :: told).map fun r => ((Op.DEL : Op), r)).map Prod.snd = o :: told := by
        simp [List.map_map, Function.comp_def]
      rw [hf, hm]
    · have hf : List.filter (fun p => p.1 != Op.DEL) ((o :: told).map fun r => (Op.DEL, r))
          = [] := by
        simp [List.filter_map, Function.comp_def, bne]
      rw [hf, List.map_nil]
  | case3 o told n tnew hlt ih =>
    rw [delta_lt o n told tnew hlt, except_map_ok] at h
    obtain ⟨rest, hrest, rfl⟩ := h
    obtain ⟨s1, s2⟩ := ih rest hrest
    constructor
    · have hf : List.filter (fun p => p.1 == Op.DEL) ((Op.DEL, o) :: rest)
          = (Op.DEL, o) :: List.filter (fun p => p.1 == Op.DEL) rest := by
        simp [List.filter_cons]
      rw [hf, List.map_cons]
      exact List.Sublist.cons₂ o s1
    · have hf : List.filter (fun p => p.1 != Op.DEL) ((Op.DEL, o) :: rest)
          = List.filter (fun p => p.1 != Op.DEL) rest := by
        simp [List.filter_cons, bne]
      rw [hf]
      exact s2
  | case4 o told n tnew h1 hgt ih =>
    rw [delta_gt o n told tnew hgt, except_map_ok] at h
    obtain ⟨rest, hrest, rfl⟩ := h
    obtain ⟨s1, s2⟩ := ih rest hrest
    constructor
    · have hf : List.filter (fun p => p.1 == Op.DEL) ((Op.ADD, n) :: rest)
          = List.filter (fun p => p.1 == Op.DEL) rest := by
        simp [List.filter_cons]
      rw [hf]
      exact s1
    · have hf : List.filter (fun p => p.1 != Op.DEL) ((Op.ADD, n) :: rest)
          = (Op.ADD, n) :: List.filter (fun p => p.1 != Op.DEL) rest := by
        simp [List.filter_cons, bne]
      rw [hf, List.map_cons]
      exact List.Sublist.cons₂ n s2
  | case5 o told n tnew h1 h2 hfr ih =>
    rw [delta_equal_skip o n told tnew (le_antisymm (not_lt.mp h2) (not_lt.mp h1)) hfr] at h
    obtain ⟨s1, s2⟩ := ih out h
    exact ⟨List.Sublist.cons o s1, List.Sublist.cons n s2⟩
  | case6 o told n tnew h1 h2 hfr hlen ih =>
    rw [delta_equal_fresh o n told tnew (le_antisymm (not_lt.mp h2) (not_lt.mp h1))
      (Bool.not_eq_true _ ▸ hfr) hlen, except_map_ok] at h
    obtain ⟨rest, hrest, rfl⟩ := h
    obtain ⟨s1, s2⟩ := ih rest hrest
    have hnd : (scanCols o.modified n.modified o.columns n.columns == Op.DEL) = false :=
      beq_eq_false_iff_ne.mpr
        (scanCols_ne_del o.modified n.modified o.columns n.columns)
    constructor
    · have hf : List.filter (fun p => p.1 == Op.DEL)
          ((scanCols o.modified n.modified o.columns n.columns, n) :: rest)
          = List.filter (fun p => p.1 == Op.DEL) rest := by
        simp [List.filter_cons, hnd]
      rw [hf]
      exact List.Sublist.cons o s1
    · have hf : List.filter (fun p => p.1 != Op.DEL)
          ((scanCols o.modified n.modified o.columns n.columns, n) :: rest)
          = (scanCols o.modified n.modified o.columns n.columns, n)
            :: List.filter (fun p => p.1 != Op.DEL) rest := by
        simp [List.filter_cons, bne, hnd]
      rw [hf, List.map_cons]
      exact List.Sublist.cons₂ n s2
  | case7 o told n tnew h1 h2 hfr hlen =>
    rw [delta_equal_bad o n told tnew (le_antisymm (not_lt.mp h2) (not_lt.mp h1))
      (Bool.not_eq_true _ ▸ hfr) hlen] at h
    cases h

/-- Claim C10: a successful delta run yields each input record at most
once: the records of the DEL entries form an order-preserving sub-sequence
of the old stream and the records of the remaining (ADD, MOD, UPD) entries
an order-preserving sub-sequence of the new stream, so the output length is
bounded by the sum of the input lengths; in particular every DEL carries a
record of the old stream and every ADD, MOD or UPD a record of the new
stream. -/
theorem delta_provenance_bound (old_rows new_rows : List DeltaRow)
    (out : List (Op × DeltaRow)) (h : delta old_rows new_rows = .ok out) :
    ((out.filter fun p => p.1 == Op.DEL).map Prod.snd).Sublist old_rows ∧
    ((out.filter fun p => p.1 != Op.DEL).map Prod.snd).Sublist new_rows ∧
    out.length ≤ old_rows.length + new_rows.length ∧
    ∀ p ∈ out, (p.1 = Op.DEL → p.2 ∈ old_rows) ∧ (p.1 ≠ Op.DEL → p.2 ∈ new_rows) := by
  obtain ⟨s1, s2⟩ := delta_ok_sublists _ _ _ h
  refine ⟨s1, s2, delta_ok_length _ _ _ h, ?_⟩
  intro p hp
  rcases delta_ok_mem _ _ _ h p hp with ⟨h1, h2⟩ | ⟨h1, h2⟩
  · exact ⟨fun _ => h2, fun hne => absurd h1 hne⟩
  · exact ⟨fun hd => absurd hd h1, fun _ => h2⟩

/-- Witness for C10 on disjoint singletons: the DEL entry projects to the
old stream, the ADD entry to the new stream, each record appearing once,
two entries for two input records. -/
theorem delta_provenance_bound_w :
    (([((Op.DEL : Op), wRow1), (Op.ADD, wRow2)].filter fun p => p.1 == Op.DEL).map
        Prod.snd).Sublist [wRow1] ∧
    (([((Op.DEL : Op), wRow1), (Op.ADD, wRow2)].filter fun p => p.1 != Op.DEL).map
        Prod.snd).Sublist [wRow2] ∧
    ([((Op.DEL : Op), wRow1), (Op.ADD, wRow2)].length ≤ [wRow1].length + [wRow2].length) ∧
    ∀ p ∈ [((Op.DEL : Op), wRow1), (Op.ADD, wRow2)],
      (p.1 = Op.DEL → p.2 ∈ [wRow1]) ∧ (p.1 ≠ Op.DEL → p.2 ∈ [wRow2]) :=
  delta_provenance_bound [wRow1] [wRow2] _ (by
    rw [delta_lt wRow1 wRow2 [] [] (by decide), delta_nil_left]
    simp [Except.map])

theorem delta_error_mem (old_rows new_rows : List DeltaRow)
    (e : DeltaError) (h : delta old_rows new_rows = .error e) :
    badPair old_rows new_rows := by
  induction old_rows, new_rows using delta.induct generalizing e with
  | case1 newRows =>
    rw [delta_nil_left] at h
    cases h
  | case2 o told =>
    rw [delta_nil_right] at h
    cases h
  | case3 o told n tnew hlt ih =>
    rw [delta_lt o n told tnew hlt, except_map_error] at h
    obtain ⟨o', ho', n', hn', hprop⟩ := ih e h
    exact ⟨o', List.mem_cons_of_mem _ ho', n', hn', hprop⟩
  | case4 o told n tnew h1 hgt ih =>
    rw [delta_gt o n told tnew hgt, except_map_error] at h
    obtain ⟨o', ho', n', hn', hprop⟩ := ih e h
    exact ⟨o', ho', n', List.mem_cons_of_mem _ hn', hprop⟩
  | case5 o told n tnew h1 h2 hfr ih =>
    rw [delta_equal_skip o n told tnew (le_antisymm (not_lt.mp h2) (not_lt.mp h1)) hfr] at h
    obtain ⟨o', ho', n', hn', hprop⟩ := ih e h
    exact ⟨o', List.mem_cons_of_mem _ ho', n', List.mem_cons_of_mem _ hn', hprop⟩
  | case6 o told n tnew h1 h2 hfr hlen ih =>
    rw [delta_equal_fresh o n told tnew (le_antisymm (not_lt.mp h2) (not_lt.mp h1))
      (Bool.not_eq_true _ ▸ hfr) hlen, except_map_error] at h
    obtain ⟨o', ho', n', hn', hprop⟩ := ih e h
    exact ⟨o', List.mem_cons_of_mem _ ho', n', List.mem_cons_of_mem _ hn', hprop⟩
  | case7 o told n tnew h1 h2 hfr hlen =>
    refine ⟨o, List.mem_cons_self _ _, n, List.mem_cons_self _ _,
      le_antisymm (not_lt.mp h2) (not_lt.mp h1), ?_, hlen⟩
    simp only [freshGe, decide_eq_true_eq] at hfr
    omega

theorem badPair_delta_error (old_rows new_rows : List DeltaRow)
    (hso : idSortedStrict old_rows) (hsn : idSortedStrict new_rows)
    (hb : badPair old_rows new_rows) :
    delta old_rows new_rows = .error .contractViolation := by
  induction old_rows, new_rows using delta.induct with
  | case1 newRows =>
    obtain ⟨o', ho', _⟩ := hb
    exact absurd ho' (List.not_mem_nil _)
  | case2 o told =>
    obtain ⟨o', ho', n', hn', _⟩ := hb
    exact absurd hn' (List.not_mem_nil _)
  | case3 o told n tnew hlt ih =>
    obtain ⟨hoAll, hso'⟩ := List.pairwise_cons.mp hso
    obtain ⟨hnAll, hsn'⟩ := List.pairwise_cons.mp hsn
    rw [delta_lt o n told tnew hlt, except_map_error]
    obtain ⟨o', ho', n', hn', hid', hfr', hlen'⟩ := hb
    rcases List.mem_cons.mp ho' with rfl | ho'
    · rcases List.mem_cons.mp hn' with rfl | hn'
      · exact absurd hid' (ne_of_lt hlt)
      · exact absurd hid' (ne_of_lt (lt_trans hlt (hnAll n' hn')))
    · exact ih hso' hsn ⟨o', ho', n', hn', hid', hfr', hlen'⟩
  | case4 o told n tnew h1 hgt ih =>
    obtain ⟨hoAll, hso'⟩ := List.pairwise_cons.mp hso
    obtain ⟨hnAll, hsn'⟩ := List.pairwise_cons.mp hsn
    rw [delta_gt o n told tnew hgt, except_map_error]
    obtain ⟨o', ho', n', hn', hid', hfr', hlen'⟩ := hb
    rcases List.mem_cons.mp hn' with rfl | hn'
    · rcases List.mem_cons.mp ho' with rfl | ho'
      · exact absurd hid'.symm (ne_of_lt hgt)
      · exact absurd hid'.symm (ne_of_lt (lt_trans hgt (hoAll o' ho')))
    · exact ih hso hsn' ⟨o', ho', n', hn', hid', hfr', hlen'⟩
  | case5 o told n tnew h1 h2 hfr ih =>
    have hid : o.id = n.id := le_antisymm (not_lt.mp h2) (not_lt.mp h1)
    obtain ⟨hoAll, hso'⟩ := List.pairwise_cons.mp hso
    obtain ⟨hnAll, hsn'⟩ := List.pairwise_cons.mp hsn
    rw [delta_equal_skip o n told tnew hid hfr]
    obtain ⟨o', ho', n', hn', hid', hfr', hlen'⟩ := hb
    rcases List.mem_cons.mp ho' with rfl | ho'
    · rcases List.mem_cons.mp hn' with rfl | hn'
      · simp only [freshGe, decide_eq_true_eq] at hfr
        omega
      · exact absurd hid' (ne_of_lt (hid ▸ hnAll n' hn'))
    · rcases List.mem_cons.mp hn' with rfl | hn'
      · exact absurd hid'.symm (ne_of_lt (hid ▸ hoAll o' ho'))
      · exact ih hso' hsn' ⟨o', ho', n', hn', hid', hfr', hlen'⟩
  | case6 o told n tnew h1 h2 hfr hlen ih =>
    have hid : o.id = n.id := le_antisymm (not_lt.mp h2) (not_lt.mp h1)
    obtain ⟨hoAll, hso'⟩ := List.pairwise_cons.mp hso
    obtain ⟨hnAll, hsn'⟩ := List.pairwise_cons.mp hsn
    rw [delta_equal_fresh o n told tnew hid (Bool.not_eq_true _ ▸ hfr) hlen, except_map_error]
    obtain ⟨o', ho', n', hn', hid', hfr', hlen'⟩ := hb
    rcases List.mem_cons.mp ho' with rfl | ho'
    · rcases List.mem_cons.mp hn' with rfl | hn'
      · exact absurd hlen hlen'
      · exact absurd hid' (ne_of_lt (hid ▸ hnAll n' hn'))
    · rcases List.mem_cons.mp hn' with rfl | hn'
      · exact absurd hid'.symm (ne_of_lt (hid ▸ hoAll o' ho'))
      · exact ih hso' hsn' ⟨o', ho', n', hn', hid', hfr', hlen'⟩
  | case7 o told n tnew h1 h2 hfr hlen =>
    exact delta_equal_bad o n told tnew (le_antisymm (not_lt.mp h2) (not_lt.mp h1))
      (Bool.not_eq_true _ ▸ hfr) hlen

/-- Claim C5: delta fails, and fails only with the contract violation,
exactly when a same-id pair with a strictly fresher new side and mismatched
column lengths is reached: an iff for strictly id-sorted streams; and in
general every input free of such a pair (empty streams, one-sided streams,
duplicate ids, null timestamps, stale same-id length mismatches) completes
without error and yields a result. -/
theorem delta_error_characterization (old_rows new_rows : List DeltaRow) :
    (idSortedStrict old_rows → idSortedStrict new_rows →
      ((∃ e, delta old_rows new_rows = .error e) ↔ badPair old_rows new_rows)) ∧
    (¬ badPair old_rows new_rows → ∃ out, delta old_rows new_rows = .ok out) := by
  constructor
  · intro hso hsn
    constructor
    · rintro ⟨e, he⟩
      exact delta_error_mem _ _ e he
    · intro hb
      exact ⟨_, badPair_delta_error _ _ hso hsn hb⟩
  · intro hnb
    cases hdel : delta old_rows new_rows with
    | ok out => exact ⟨out, rfl⟩
    | error e => exact absurd (delta_error_mem _ _ e hdel) hnb

/-- Witness for C5: wBad1 and wBad2 share id 4, the new side is fresher and
the lengths differ, so delta errors; swapping the sides makes the old side
fresher, no bad pair exists, and the run completes. -/
theorem delta_error_characterization_w :
    (∃ e, delta [wBad1] [wBad2] = .error e) ∧
    ∃ out, delta [wBad2] [wBad1] = .ok out :=
  ⟨((delta_error_characterization [wBad1] [wBad2]).1 (by simp [idSortedStrict])
      (by simp [idSortedStrict])).mpr (by simp only [badPair]; decide),
   (delta_error_characterization [wBad2] [wBad1]).2 (by simp only [badPair]; decide)⟩

theorem hasMatch_eq_false (i : Int) (rows : List DeltaRow)
    (h : ∀ s ∈ rows, i ≠ s.id) : hasMatch i rows = false := by
  simp only [hasMatch, List.any_eq_false]
  intro s hs
  simp [beq_eq_false_iff_ne.mpr (h s hs)]

theorem hasMatch_cons_ne (i : Int) (s : DeltaRow) (rows : List DeltaRow)
    (h : i ≠ s.id) : hasMatch i (s :: rows) = hasMatch i rows := by
  simp [hasMatch, List.any_cons, beq_eq_false_iff_ne.mpr h]

theorem hasMatch_cons_eq (i : Int) (s : DeltaRow) (rows : List DeltaRow)
    (h : i = s.id) : hasMatch i (s :: rows) = true := by
  simp [hasMatch, List.any_cons, beq_iff_eq.mpr h]

theorem freshMatch_eq_false (o : DeltaRow) (rows : List DeltaRow)
    (h : ∀ s ∈ rows, o.id ≠ s.id) : freshMatch o rows = false := by
  simp only [freshMatch, List.any_eq_false]
  intro s hs
  simp [beq_eq_false_iff_ne.mpr (h s hs)]

theorem freshMatch_cons_ne (o s : DeltaRow) (rows : List DeltaRow)
    (h : o.id ≠ s.id) : freshMatch o (s :: rows) = freshMatch o rows := by
  simp [freshMatch, List.any_cons, beq_eq_false_iff_ne.mpr h]

theorem freshMatch_cons_stale (o s : DeltaRow) (rows : List DeltaRow)
    (hnf : ¬ modOrZero o.modified < modOrZero s.modified) :
    freshMatch o (s :: rows) = freshMatch o rows := by
  simp [freshMatch, List.any_cons, hnf]

theorem freshMatch_cons_fresh (o s : DeltaRow) (rows : List DeltaRow)
    (hid : o.id = s.id) (hf : modOrZero o.modified < modOrZero s.modified) :
    freshMatch o (s :: rows) = true := by
  simp [freshMatch, List.any_cons, beq_iff_eq.mpr hid, hf]

theorem orphanCount_cons (r : DeltaRow) (rows other : List DeltaRow) :
    orphanCount (r :: rows) other =
      (if hasMatch r.id other then 0 else 1) + orphanCount rows other := by
  simp only [orphanCount, List.filter_cons]
  cases h : hasMatch r.id other <;> simp [h, Nat.add_comm]

theorem orphanCount_congr (rows other other' : List DeltaRow)
    (h : ∀ r ∈ rows, hasMatch r.id other = hasMatch r.id other') :
    orphanCount rows other = orphanCount rows other' := by
  simp only [orphanCount]
  rw [List.filter_congr (fun r hr => by rw [h r hr])]

theorem freshSharedCount_cons (o : DeltaRow) (told new_rows : List DeltaRow) :
    freshSharedCount (o :: told) new_rows =
      (if freshMatch o new_rows then 1 else 0) + freshSharedCount told new_rows := by
  simp only [freshSharedCount, List.filter_cons]
  cases h : freshMatch o new_rows <;> simp [h, Nat.add_comm]

theorem freshSharedCount_congr (rows a b : List DeltaRow)
    (h : ∀ r ∈ rows, freshMatch r a = freshMatch r b) :
    freshSharedCount rows a = freshSharedCount rows b := by
  simp only [freshSharedCount]
  rw [List.filter_congr (fun r hr => by rw [h r hr])]

/-- Claim C4 as stated is false on the code: a resolved equal-id pair whose
old side is at least as fresh emits no operation at all, so the output of
delta on one identical record in both streams is empty although one
resolved pair and no orphan exists. -/
theorem delta_one_op_per_pair_cex :
    ¬ (∀ old_rows new_rows : List DeltaRow,
        idSortedStrict old_rows → idSortedStrict new_rows →
        ∀ out, delta old_rows new_rows = Except.ok out →
          out.length = orphanCount old_rows new_rows + orphanCount new_rows old_rows
            + sharedCount old_rows new_rows) := by
  intro h
  have h0 := h [wRow1] [wRow1] (by simp [idSortedStrict]) (by simp [idSortedStrict])
      [] (by
        rw [delta_equal_skip wRow1 wRow1 [] [] rfl (by simp [freshGe])]
        simpa using delta_nil_left [])
  have hc : orphanCount [wRow1] [wRow1] + orphanCount [wRow1] [wRow1]
      + sharedCount [wRow1] [wRow1] = 1 := by decide
  rw [hc] at h0
  simp at h0

/-- Claim C4 amended: over strictly id-sorted streams, a successful delta
run emits exactly one operation per orphaned record on either side and
exactly one operation per resolved equal-id pair whose new side is strictly
fresher; a resolved pair whose old side is at least as fresh emits none. -/
theorem delta_one_op_per_pair_amended (old_rows new_rows : List DeltaRow)
    (hso : idSortedStrict old_rows) (hsn : idSortedStrict new_rows)
    (out : List (Op × DeltaRow)) (h : delta old_rows new_rows = .ok out) :
    out.length = orphanCount old_rows new_rows + orphanCount new_rows old_rows
      + freshSharedCount old_rows new_rows := by
  induction old_rows, new_rows using delta.induct generalizing out with
  | case1 newRows =>
    rw [delta_nil_left] at h
    injection h with h
    subst h
    simp [orphanCount, freshSharedCount, hasMatch]
  | case2 o told =>
    rw [delta_nil_right] at h
    injection h with h
    subst h
    simp [orphanCount, freshSharedCount, hasMatch, freshMatch]
  | case3 o told n tnew hlt ih =>
    obtain ⟨hoAll, hso'⟩ := List.pairwise_cons.mp hso
    obtain ⟨hnAll, hsn'⟩ := List.pairwise_cons.mp hsn
    rw [delta_lt o n told tnew hlt, except_map_ok] at h
    obtain ⟨rest, hrest, rfl⟩ := h
    have hA1 : hasMatch o.id (n :: tnew) = false := by
      apply hasMatch_eq_false
      intro s hs
      rcases List.mem_cons.mp hs with rfl | hs
      · exact ne_of_lt hlt
      · exact ne_of_lt (lt_trans hlt (hnAll s hs))
    have hA2 : orphanCount (n :: tnew) (o :: told) = orphanCount (n :: tnew) told := by
      apply orphanCount_congr
      intro r hr
      apply hasMatch_cons_ne
      rcases List.mem_cons.mp hr with rfl | hr
      · exact (ne_of_lt hlt).symm
      · exact (ne_of_lt (lt_trans hlt (hnAll r hr))).symm
    have hA3 : freshMatch o (n :: tnew) = false := by
      apply freshMatch_eq_false
      intro s hs
      rcases List.mem_cons.mp hs with rfl | hs
      · exact ne_of_lt hlt
      · exact ne_of_lt (lt_trans hlt (hnAll s hs))
    have ihr := ih hso' hsn rest hrest
    rw [List.length_cons, orphanCount_cons, hA1, hA2, freshSharedCount_cons, hA3]
    simp
    omega
  | case4 o told n tnew h1 hgt ih =>
    obtain ⟨hoAll, hso'⟩ := List.pairwise_cons.mp hso
    obtain ⟨hnAll, hsn'⟩ := List.pairwise_cons.mp hsn
    rw [delta_gt o n told tnew hgt, except_map_ok] at h
    obtain ⟨rest, hrest, rfl⟩ := h
    have hA1 : hasMatch n.id (o :: told) = false := by
      apply hasMatch_eq_false
      intro s hs
      rcases List.mem_cons.mp hs with rfl | hs
      · exact ne_of_lt hgt
      · exact ne_of_lt (lt_trans hgt (hoAll s hs))
    have hA2 : orphanCount (o :: told) (n :: tnew) = orphanCount (o :: told) tnew := by
      apply orphanCount_congr
      intro r hr
      apply hasMatch_cons_ne
      rcases List.mem_cons.mp hr with rfl | hr
      · exact (ne_of_lt hgt).symm
      · exact (ne_of_lt (lt_trans hgt (hoAll r hr))).symm
    have hA3 : freshSharedCount (o :: told) (n :: tnew) =
        freshSharedCount (o :: told) tnew := by
      apply freshSharedCount_congr
      intro r hr
      apply freshMatch_cons_ne
      rcases List.mem_cons.mp hr with rfl | hr
      · exact (ne_of_lt hgt).symm
      · exact (ne_of_lt (lt_trans hgt (hoAll r hr))).symm
    have ihr := ih hso hsn' rest hrest
    rw [List.length_cons, hA2, orphanCount_cons n tnew (o :: told), hA1, hA3]
    simp
    omega
  | case5 o told n tnew h1 h2 hfr ih =>
    have hid : o.id = n.id := le_antisymm (not_lt.mp h2) (not_lt.mp h1)
    obtain ⟨hoAll, hso'⟩ := List.pairwise_cons.mp hso
    obtain ⟨hnAll, hsn'⟩ := List.pairwise_cons.mp hsn
    rw [delta_equal_skip o n told tnew hid hfr] at h
    have hB1 : hasMatch o.id (n :: tnew) = true := hasMatch_cons_eq _ _ _ hid
    have hB2 : hasMatch n.id (o :: told) = true := hasMatch_cons_eq _ _ _ hid.symm
    have hB3 : orphanCount told (n :: tnew) = orphanCount told tnew := by
      apply orphanCount_congr
      intro r hr
      apply hasMatch_cons_ne
      exact (ne_of_lt (hid ▸ hoAll r hr)).symm
    have hB4 : orphanCount tnew (o :: told) = orphanCount tnew told := by
      apply orphanCount_congr
      intro r hr
      apply hasMatch_cons_ne
      exact (ne_of_lt (hid.symm ▸ hnAll r hr)).symm
    have hnfr : ¬ modOrZero o.modified < modOrZero n.modified := by
      simp only [freshGe, decide_eq_true_eq] at hfr
      omega
    have hB5 : freshMatch o (n :: tnew) = freshMatch o tnew :=
      freshMatch_cons_stale _ _ _ hnfr
    have hB6 : freshMatch o tnew = false := by
      apply freshMatch_eq_false
      intro s hs
      exact ne_of_lt (hid ▸ hnAll s hs)
    have hB7 : freshSharedCount told (n :: tnew) = freshSharedCount told tnew := by
      apply freshSharedCount_congr
      intro r hr
      apply freshMatch_cons_ne
      exact (ne_of_lt (hid ▸ hoAll r hr)).symm
    have ihr := ih hso' hsn' out h
    rw [orphanCount_cons, hB1, hB3, orphanCount_cons, hB2, hB4,
        freshSharedCount_cons, hB5, hB6, hB7]
    simp
    omega
  | case6 o told n tnew h1 h2 hfr hlen ih =>
    have hid : o.id = n.id := le_antisymm (not_lt.mp h2) (not_lt.mp h1)
    obtain ⟨hoAll, hso'⟩ := List.pairwise_cons.mp hso
    obtain ⟨hnAll, hsn'⟩ := List.pairwise_cons.mp hsn
    rw [delta_equal_fresh o n told tnew hid (Bool.not_eq_true _ ▸ hfr) hlen,
        except_map_ok] at h
    obtain ⟨rest, hrest, rfl⟩ := h
    have hB1 : hasMatch o.id (n :: tnew) = true := hasMatch_cons_eq _ _ _ hid
    have hB2 : hasMatch n.id (o :: told) = true := hasMatch_cons_eq _ _ _ hid.symm
    have hB3 : orphanCount told (n :: tnew) = orphanCount told tnew := by
      apply orphanCount_congr
      intro r hr
      apply hasMatch_cons_ne
      exact (ne_of_lt (hid ▸ hoAll r hr)).symm
    have hB4 : orphanCount tnew (o :: told) = orphanCount tnew told := by
      apply orphanCount_congr
      intro r hr
      apply hasMatch_cons_ne
      exact (ne_of_lt (hid.symm ▸ hnAll r hr)).symm
    have hfresh : modOrZero o.modified < modOrZero n.modified := by
      simp only [freshGe, decide_eq_true_eq] at hfr
      omega
    have hB5 : freshMatch o (n :: tnew) = true :=
      freshMatch_cons_fresh _ _ _ hid hfresh
    have hB7 : freshSharedCount told (n :: tnew) = freshSharedCount told tnew := by
      apply freshSharedCount_congr
      intro r hr
      apply freshMatch_cons_ne
      exact (ne_of_lt (hid ▸ hoAll r hr)).symm
    have ihr := ih hso' hsn' rest hrest
    rw [List.length_cons, orphanCount_cons, hB1, hB3, orphanCount_cons, hB2, hB4,
        freshSharedCount_cons, hB5, hB7]
    simp
    omega
  | case7 o told n tnew h1 h2 hfr hlen =>
    rw [delta_equal_bad o n told tnew (le_antisymm (not_lt.mp h2) (not_lt.mp h1))
      (Bool.not_eq_true _ ▸ hfr) hlen] at h
    cases h

/-- Witness for the amended C4: one fresh same-id pair, no orphans, one
emitted operation. -/
theorem delta_one_op_per_pair_amended_w :
    (1 : Nat) = orphanCount [wRow1] [wRow1b] + orphanCount [wRow1b] [wRow1]
      + freshSharedCount [wRow1] [wRow1b] := by
  have h := delta_one_op_per_pair_amended [wRow1] [wRow1b]
      (by simp [idSortedStrict]) (by simp [idSortedStrict]) [(Op.UPD, wRow1b)]
      (by
        rw [delta_equal_fresh wRow1 wRow1b [] [] (by decide) (by decide) (by decide),
            delta_nil_left]
        have ht : scanCols wRow1.modified wRow1b.modified wRow1.columns wRow1b.columns
            = Op.UPD := by decide
        simp [Except.map, ht])
  simpa using h

theorem except_map_map {α β γ δ : Type} (f : β → γ) (g : γ → δ) (e : Except α β) :
    (e.map f).map g = e.map (fun b => g (f b)) := by
  cases e <;> rfl

theorem except_map_nil_append {α : Type} (e : Except α (List (Op × DeltaRow))) :
    e.map (fun out => ([] : List (Op × DeltaRow)) ++ out) = e := by
  cases e <;> rfl

theorem delta_drain_new (oldExt newExt newMid : List DeltaRow)
    (hb : ∀ r ∈ newMid, ∀ s ∈ oldExt, r.id < s.id) :
    delta oldExt (newMid ++ newExt) =
      (delta oldExt newExt).map
        (fun out => newMid.map (fun r => (Op.ADD, r)) ++ out) := by
  induction newMid with
  | nil => exact (except_map_nil_append _).symm
  | cons m tmid ih =>
    cases oldExt with
    | nil =>
      rw [delta_nil_left, delta_nil_left]
      simp [Except.map]
    | cons e te =>
      have hgt : m.id < e.id := hb m (List.mem_cons_self _ _) e (List.mem_cons_self _ _)
      rw [List.cons_append, delta_gt e m te (tmid ++ newExt) hgt,
          ih (fun r hr s hs => hb r (List.mem_cons_of_mem _ hr) s hs),
          except_map_map]
      rfl

theorem delta_drain_old (oldExt newExt oldMid : List DeltaRow)
    (hb : ∀ r ∈ oldMid, ∀ s ∈ newExt, r.id < s.id) :
    delta (oldMid ++ oldExt) newExt =
      (delta oldExt newExt).map
        (fun out => oldMid.map (fun r => (Op.DEL, r)) ++ out) := by
  induction oldMid with
  | nil => exact (except_map_nil_append _).symm
  | cons m tmid ih =>
    cases newExt with
    | nil =>
      rw [delta_nil_right, delta_nil_right]
      simp [Except.map]
    | cons e te =>
      have hlt : m.id < e.id := hb m (List.mem_cons_self _ _) e (List.mem_cons_self _ _)
      rw [List.cons_append, delta_lt m e (tmid ++ oldExt) te hlt,
          ih (fun r hr s hs => hb r (List.mem_cons_of_mem _ hr) s hs),
          except_map_map]
      rfl

theorem delta_append_stable (old_rows new_rows oldExt newExt : List DeltaRow)
    (out : List (Op × DeltaRow))
    (hb : ∀ r ∈ old_rows ++ new_rows, ∀ s ∈ oldExt ++ newExt, r.id < s.id)
    (h : delta old_rows new_rows = .ok out) :
    delta (old_rows ++ oldExt) (new_rows ++ newExt) =
      (delta oldExt newExt).map (fun rest => out ++ rest) := by
  induction old_rows, new_rows using delta.induct generalizing out with
  | case1 newRows =>
    rw [delta_nil_left] at h
    injection h with h
    subst h
    rw [List.nil_append]
    exact delta_drain_new oldExt newExt newRows
      (fun r hr s hs => hb r (by simp [hr]) s (List.mem_append_left _ hs))
  | case2 o told =>
    rw [delta_nil_right] at h
    injection h with h
    subst h
    rw [List.nil_append]
    exact delta_drain_old oldExt newExt (o :: told)
      (fun r hr s hs => hb r (List.mem_append_left _ hr) s (List.mem_append_right _ hs))
  | case3 o told n tnew hlt ih =>
    rw [delta_lt o n told tnew hlt, except_map_ok] at h
    obtain ⟨rest, hrest, rfl⟩ := h
    have hb' : ∀ r ∈ told ++ (n :: tnew), ∀ s ∈ oldExt ++ newExt, r.id < s.id := by
      intro r hr s hs
      apply hb r _ s hs
      rcases List.mem_append.mp hr with h' | h'
      · exact List.mem_append.mpr (Or.inl (List.mem_cons_of_mem _ h'))
      · exact List.mem_append.mpr (Or.inr h')
    have hrec := ih rest hb' hrest
    rw [List.cons_append, List.cons_append, delta_lt o n (told ++ oldExt) (tnew ++ newExt) hlt,
        ← List.cons_append, hrec, except_map_map]
    rfl
  | case4 o told n tnew h1 hgt ih =>
    rw [delta_gt o n told tnew hgt, except_map_ok] at h
    obtain ⟨rest, hrest, rfl⟩ := h
    have hb' : ∀ r ∈ (o :: told) ++ tnew, ∀ s ∈ oldExt ++ newExt, r.id < s.id := by
      intro r hr s hs
      apply hb r _ s hs
      rcases List.mem_append.mp hr with h' | h'
      · exact List.mem_append.mpr (Or.inl h')
      · exact List.mem_append.mpr (Or.inr (List.mem_cons_of_mem _ h'))
    have hrec := ih rest hb' hrest
    rw [List.cons_append, List.cons_append, delta_gt o n (told ++ oldExt) (tnew ++ newExt) hgt,
        ← List.cons_append, hrec, except_map_map]
    rfl
  | case5 o told n tnew h1 h2 hfr ih =>
    have hid : o.id = n.id := le_antisymm (not_lt.mp h2) (not_lt.mp h1)
    rw [delta_equal_skip o n told tnew hid hfr] at h
    have hb' : ∀ r ∈ told ++ tnew, ∀ s ∈ oldExt ++ newExt, r.id < s.id := by
      intro r hr s hs
      apply hb r _ s hs
      rcases List.mem_append.mp hr with h' | h'
      · exact List.mem_append.mpr (Or.inl (List.mem_cons_of_mem _ h'))
      · exact List.mem_append.mpr (Or.inr (List.mem_cons_of_mem _ h'))
    rw [List.cons_append, List.cons_append,
        delta_equal_skip o n (told ++ oldExt) (tnew ++ newExt) hid hfr]
    exact ih out hb' h
  | case6 o told n tnew h1 h2 hfr hlen ih =>
    have hid : o.id = n.id := le_antisymm (not_lt.mp h2) (not_lt.mp h1)
    rw [delta_equal_fresh o n told tnew hid (Bool.not_eq_true _ ▸ hfr) hlen,
        except_map_ok] at h
    obtain ⟨rest, hrest, rfl⟩ := h
    have hb' : ∀ r ∈ told ++ tnew, ∀ s ∈ oldExt ++ newExt, r.id < s.id := by
      intro r hr s hs
      apply hb r _ s hs
      rcases List.mem_append.mp hr with h' | h'
      · exact List.mem_append.mpr (Or.inl (List.mem_cons_of_mem _ h'))
      · exact List.mem_append.mpr (Or.inr (List.mem_cons_of_mem _ h'))
    have hrec := ih rest hb' hrest
    rw [List.cons_append, List.cons_append,
        delta_equal_fresh o n (told ++ oldExt) (tnew ++ newExt) hid
          (Bool.not_eq_true _ ▸ hfr) hlen,
        hrec, except_map_map]
    rfl
  | case7 o told n tnew h1 h2 hfr hlen =>
    rw [delta_equal_bad o n told tnew (le_antisymm (not_lt.mp h2) (not_lt.mp h1))
      (Bool.not_eq_true _ ▸ hfr) hlen] at h
    cases h

theorem delta_out_id_lb (k : Int) (old_rows new_rows : List DeltaRow)
    (out : List (Op × DeltaRow))
    (hko : ∀ r ∈ old_rows, k ≤ r.id) (hkn : ∀ r ∈ new_rows, k ≤ r.id)
    (h : delta old_rows new_rows = .ok out) :
    ∀ p ∈ out, k ≤ p.2.id := by
  intro p hp
  rcases delta_ok_mem _ _ _ h p hp with ⟨_, hm⟩ | ⟨_, hm⟩
  · exact hko _ hm
  · exact hkn _ hm

theorem delta_out_chain (old_rows new_rows : List DeltaRow)
    (hso : idSortedLe old_rows) (hsn : idSortedLe new_rows)
    (out : List (Op × DeltaRow)) (h : delta old_rows new_rows = .ok out) :
    List.Chain' (fun p q => p.2.id ≤ q.2.id) out := by
  induction old_rows, new_rows using delta.induct generalizing out with
  | case1 newRows =>
    rw [delta_nil_left] at h
    injection h with h
    subst h
    exact (List.chain'_map _).mpr hsn.chain'
  | case2 o told =>
    rw [delta_nil_right] at h
    injection h with h
    subst h
    exact (List.chain'_map _).mpr hso.chain'
  | case3 o told n tnew hlt ih =>
    obtain ⟨hoAll, hso'⟩ := List.pairwise_cons.mp hso
    obtain ⟨hnAll, hsn'⟩ := List.pairwise_cons.mp hsn
    rw [delta_lt o n told tnew hlt, except_map_ok] at h
    obtain ⟨rest, hrest, rfl⟩ := h
    refine List.chain'_cons'.mpr ⟨?_, ih hso' hsn rest hrest⟩
    intro q hq
    refine delta_out_id_lb o.id told (n :: tnew) rest hoAll ?_ hrest q
      (List.mem_of_mem_head? hq)
    intro r hr
    rcases List.mem_cons.mp hr with rfl | hr
    · exact le_of_lt hlt
    · exact (le_of_lt hlt).trans (hnAll r hr)
  | case4 o told n tnew h1 hgt ih =>
    obtain ⟨hoAll, hso'⟩ := List.pairwise_cons.mp hso
    obtain ⟨hnAll, hsn'⟩ := List.pairwise_cons.mp hsn
    rw [delta_gt o n told tnew hgt, except_map_ok] at h
    obtain ⟨rest, hrest, rfl⟩ := h
    refine List.chain'_cons'.mpr ⟨?_, ih hso hsn' rest hrest⟩
    intro q hq
    refine delta_out_id_lb n.id (o :: told) tnew rest ?_ hnAll hrest q
      (List.mem_of_mem_head? hq)
    intro r hr
    rcases List.mem_cons.mp hr with rfl | hr
    · exact le_of_lt hgt
    · exact (le_of_lt hgt).trans (hoAll r hr)
  | case5 o told n tnew h1 h2 hfr ih =>
    rw [delta_equal_skip o n told tnew (le_antisymm (not_lt.mp h2) (not_lt.mp h1)) hfr] at h
    exact ih hso.of_cons hsn.of_cons out h
  | case6 o told n tnew h1 h2 hfr hlen ih =>
    have hid : o.id = n.id := le_antisymm (not_lt.mp h2) (not_lt.mp h1)
    obtain ⟨hoAll, hso'⟩ := List.pairwise_cons.mp hso
    obtain ⟨hnAll, hsn'⟩ := List.pairwise_cons.mp hsn
    rw [delta_equal_fresh o n told tnew hid (Bool.not_eq_true _ ▸ hfr) hlen,
        except_map_ok] at h
    obtain ⟨rest, hrest, rfl⟩ := h
    refine List.chain'_cons'.mpr ⟨?_, ih hso' hsn' rest hrest⟩
    intro q hq
    refine delta_out_id_lb n.id told tnew rest ?_ hnAll hrest q
      (List.mem_of_mem_head? hq)
    intro r hr
    exact hid ▸ hoAll r hr
  | case7 o told n tnew h1 h2 hfr hlen =>
    rw [delta_equal_bad o n told tnew (le_antisymm (not_lt.mp h2) (not_lt.mp h1))
      (Bool.not_eq_true _ ▸ hfr) hlen] at h
    cases h

/-- Claim C8: over id-sorted inputs a successful delta output is ordered by
non-decreasing record id as the merge proceeds, and appending to both
inputs only records whose ids exceed every id already present leaves the
previously emitted sequence in place as the front of the extended output. -/
theorem delta_ordered_and_stable (old_rows new_rows oldExt newExt : List DeltaRow)
    (out : List (Op × DeltaRow))
    (hso : idSortedLe old_rows) (hsn : idSortedLe new_rows)
    (hb : ∀ r ∈ old_rows ++ new_rows, ∀ s ∈ oldExt ++ newExt, r.id < s.id)
    (h : delta old_rows new_rows = .ok out) :
    List.Chain' (fun p q => p.2.id ≤ q.2.id) out ∧
    delta (old_rows ++ oldExt) (new_rows ++ newExt) =
      (delta oldExt newExt).map (fun rest => out ++ rest) :=
  ⟨delta_out_chain _ _ hso hsn out h, delta_append_stable _ _ _ _ out hb h⟩

/-- Witness for C8: diffing id 1 against id 2 emits DEL then ADD in id
order, and appending the id-3 record to the old side extends the output on
the right without disturbing the front. -/
theorem delta_ordered_and_stable_w :
    List.Chain' (fun p q => p.2.id ≤ q.2.id) [((Op.DEL : Op), wRow1), (Op.ADD, wRow2)] ∧
    delta ([wRow1] ++ [wRow3]) ([wRow2] ++ []) =
      (delta [wRow3] []).map
        (fun rest => [((Op.DEL : Op), wRow1), (Op.ADD, wRow2)] ++ rest) :=
  delta_ordered_and_stable [wRow1] [wRow2] [wRow3] [] _
    (by simp [idSortedLe]) (by simp [idSortedLe]) (by decide)
    (by
      rw [delta_lt wRow1 wRow2 [] [] (by decide), delta_nil_left]
      simp [Except.map])
